import Mathlib

/-!
Verification of the exact MILP scheduling core
(`src/schedule_generator/exact_solution.py`).

The Python module builds a Pyomo `ConcreteModel` from a `JobShopProblem`:
variables `t` (start times), `alpha` (job-machine assignment indicators),
`beta` (pairwise ordering indicators) and `tardiness`; constraint families
`calculate_tardiness`, `one_machine_per_job`, `alpha_zero_if_not_available`,
`precedence_order`, `no_overlapping_1`, `no_overlapping_2`; then solves the
model, extracts a per-machine job matrix and validates it.

We embed each constraint family as a function from its Pyomo index set to
either a predicate over variable assignments or `none` (Pyomo's
`Constraint.Skip`), and the extraction / validation procedures as executable
functions over the solved variable values (rationals standing for the
solver's reals).
-/

namespace ExactSolution

/-- The big-M constant `H = 10e3` from the source. -/
def H : ℚ := 10000

/-- The fields of a job used by `exact_solution.py`: the eligible-machine
duration mapping (a dict, here an association list), the dependency set and
the due date in days. -/
structure Job where
  available_machines : List (Nat × ℚ)
  dependencies : List Nat
  days_till_delivery : ℚ

/-- `jssp.jobs[j].available_machines.get(machine, 0)` — dict lookup with
default 0. -/
def Job.duration (job : Job) (m : Nat) : ℚ :=
  (List.lookup m job.available_machines).getD 0

/-- `machine in jssp.jobs[j].available_machines` — dict membership. -/
def Job.eligible (job : Job) (m : Nat) : Bool :=
  (List.lookup m job.available_machines).isSome

/-- The slice of `JobShopProblem` used by the module: the job list, the
number of machines, and the setup-time matrix. -/
structure JobShopProblem where
  jobs : List Job
  machines : Nat
  setup_times : List (List ℚ)

/-- `jssp.jobs[j]`; indices are always in range in the source. -/
def JobShopProblem.job (jssp : JobShopProblem) (j : Nat) : Job :=
  (jssp.jobs.get? j).getD ⟨[], [], 0⟩

/-- `jssp.setup_times[a][b]`. -/
def JobShopProblem.setup (jssp : JobShopProblem) (a b : Nat) : ℚ :=
  (((jssp.setup_times.get? a).getD []).get? b).getD 0

/-- `len(jssp.jobs)`; `model.jobs = range(len(jssp.jobs))`. -/
def JobShopProblem.njobs (jssp : JobShopProblem) : Nat := jssp.jobs.length

/-- A valuation of the model's decision variables. -/
structure Assignment where
  t : Nat → ℚ
  alpha : Nat → Nat → ℚ
  beta : Nat → Nat → ℚ
  tardiness : Nat → ℚ

/-- The machines of `model.machines` that are eligible for job `j`
(the filter `for machine in m.machines if machine in ...available_machines`
shared by several constraint rules). -/
def eligibleMachines (jssp : JobShopProblem) (j : Nat) : List Nat :=
  (List.range jssp.machines).filter (fun m => (jssp.job j).eligible m)

/-- `quicksum(alpha[j, machine] * available_machines.get(machine, 0) for
machine in m.machines if machine in available_machines)`. -/
def assignedDuration (jssp : JobShopProblem) (a : Assignment) (j : Nat) : ℚ :=
  ((eligibleMachines jssp j).map (fun m => a.alpha j m * (jssp.job j).duration m)).sum

/-- `quicksum(alpha[j, machine] for machine in m.machines if machine in
available_machines)`. -/
def alphaEligibleSum (jssp : JobShopProblem) (a : Assignment) (j : Nat) : ℚ :=
  ((eligibleMachines jssp j).map (fun m => a.alpha j m)).sum

/-- The `calculate_tardiness` rule: generated for every job, never skipped. -/
def calculate_tardiness (jssp : JobShopProblem) (j : Nat) (a : Assignment) : Prop :=
  a.tardiness j ≥
    a.t j + assignedDuration jssp a j - (jssp.job j).days_till_delivery * 24 * 60

/-- The relational expression the `one_machine_per_job` rule returns when
job `j` has at least one eligible machine. For an empty eligible set the
rule does not produce this expression at all: it returns a plain Python
bool and Pyomo fails the build — see `one_machine_per_job_rule` and
`generate_model`. -/
def one_machine_per_job (jssp : JobShopProblem) (j : Nat) (a : Assignment) : Prop :=
  alphaEligibleSum jssp a j = 1

/-- What a Pyomo constraint rule can hand back to `Constraint`
construction: a relational expression over model variables, a plain Python
bool (produced when the relation's operands contain no Pyomo variable —
`Constraint` construction raises `ValueError` on such a "trivial Boolean"),
or `Constraint.Skip`. -/
inductive RuleResult where
  | expr : (Assignment → Prop) → RuleResult
  | pyBool : Bool → RuleResult
  | skip : RuleResult

/-- The `one_machine_per_job` rule as Pyomo receives it: with at least one
eligible machine the quicksum contains `alpha` variables, so `== 1` builds
the relational expression; with no eligible machine the quicksum is the
plain int `0`, so `0 == 1` evaluates in Python to the bool `False`. -/
def one_machine_per_job_rule (jssp : JobShopProblem) (j : Nat) : RuleResult :=
  if eligibleMachines jssp j = [] then
    RuleResult.pyBool (decide ((0 : ℚ) = 1))
  else
    RuleResult.expr (fun a => alphaEligibleSum jssp a j = 1)

/-- The error Pyomo raises when a constraint rule returns a trivial
Boolean instead of a Pyomo object. -/
inductive PyomoError where
  | trivialConstraintBool
deriving DecidableEq

/-- Rule results rejected by Pyomo's `Constraint` construction with
`ValueError`. -/
def ruleIsTrivialBool : RuleResult → Bool
  | RuleResult.expr _ => false
  | RuleResult.pyBool _ => true
  | RuleResult.skip => false

/-- The build step of `generate_model`, as far as it can fail. Of all the
constraint families, only `one_machine_per_job` can produce a variable-free
relation (every other family's body contains a `t`, `alpha`, `beta` or
`tardiness` variable, or is skipped), so constraint construction raises
`ValueError` exactly when some job's `one_machine_per_job` rule returns a
plain bool; otherwise the model is built and returned. -/
def generate_model (jssp : JobShopProblem) : Except PyomoError JobShopProblem :=
  if (List.range jssp.njobs).any
      (fun j => ruleIsTrivialBool (one_machine_per_job_rule jssp j)) then
    Except.error PyomoError.trivialConstraintBool
  else
    Except.ok jssp

/-- The `alpha_zero_if_not_available` rule: indexed by (job, machine);
`Constraint.Skip` is `none`. -/
def alpha_zero_if_not_available (jssp : JobShopProblem) (j m : Nat) :
    Option (Assignment → Prop) :=
  if (jssp.job j).eligible m = false then some (fun a => a.alpha j m = 0) else none

/-- The `precedence_order` rule: indexed by (j1, j2); `Constraint.Skip` is
`none`. -/
def precedence_order (jssp : JobShopProblem) (j1 j2 : Nat) :
    Option (Assignment → Prop) :=
  if (jssp.job j1).dependencies.length > 0 ∧ j2 ∈ (jssp.job j1).dependencies then
    some (fun a => a.t j1 ≥ a.t j2 + assignedDuration jssp a j2)
  else none

/-- The `no_overlapping_1` rule: indexed by (j1, j2, machine). -/
def no_overlapping_1 (jssp : JobShopProblem) (j1 j2 machine : Nat) :
    Option (Assignment → Prop) :=
  if j1 = j2 ∨ (jssp.job j1).eligible machine = false ∨
      (jssp.job j2).eligible machine = false then
    none
  else
    some (fun a =>
      a.t j1 ≥
        a.t j2 + (jssp.job j2).duration machine + jssp.setup j2 j1 -
          (2 - a.alpha j1 machine - a.alpha j2 machine + a.beta j1 j2) * H)

/-- The `no_overlapping_2` rule: indexed by (j1, j2, machine). -/
def no_overlapping_2 (jssp : JobShopProblem) (j1 j2 machine : Nat) :
    Option (Assignment → Prop) :=
  if j1 = j2 ∨ (jssp.job j1).eligible machine = false ∨
      (jssp.job j2).eligible machine = false then
    none
  else
    some (fun a =>
      a.t j2 ≥
        a.t j1 + (jssp.job j1).duration machine + jssp.setup j1 j2 -
          (3 - a.alpha j1 machine - a.alpha j2 machine - a.beta j1 j2) * H)

/-- Satisfaction of an optionally-generated constraint: a skipped constraint
restricts nothing. -/
def conHolds (oc : Option (Assignment → Prop)) (a : Assignment) : Prop :=
  ∀ P, oc = some P → P a

/-- `oc` is a generated (non-skipped) constraint whose body is `Q`. -/
def generatesCon (oc : Option (Assignment → Prop)) (Q : Assignment → Prop) : Prop :=
  ∃ P, oc = some P ∧ ∀ a, P a ↔ Q a

/-- The variable domains declared on the model: `t`, `tardiness` in
`NonNegativeReals`; `alpha`, `beta` in `Binary`. -/
def domains (jssp : JobShopProblem) (a : Assignment) : Prop :=
  (∀ j < jssp.njobs, 0 ≤ a.t j ∧ 0 ≤ a.tardiness j) ∧
  (∀ j < jssp.njobs, ∀ m < jssp.machines, a.alpha j m = 0 ∨ a.alpha j m = 1) ∧
  (∀ j1 < jssp.njobs, ∀ j2 < jssp.njobs, a.beta j1 j2 = 0 ∨ a.beta j1 j2 = 1)

/-- A valuation is feasible for the generated model when it lies in the
variable domains and satisfies every generated constraint (meaningful for
problems on which `generate_model` actually builds the model, i.e. every
job has a non-empty eligible-machine set). -/
def feasible (jssp : JobShopProblem) (a : Assignment) : Prop :=
  domains jssp a ∧
  (∀ j < jssp.njobs, calculate_tardiness jssp j a) ∧
  (∀ j < jssp.njobs, one_machine_per_job jssp j a) ∧
  (∀ j < jssp.njobs, ∀ m < jssp.machines,
    conHolds (alpha_zero_if_not_available jssp j m) a) ∧
  (∀ j1 < jssp.njobs, ∀ j2 < jssp.njobs, conHolds (precedence_order jssp j1 j2) a) ∧
  (∀ j1 < jssp.njobs, ∀ j2 < jssp.njobs, ∀ m < jssp.machines,
    conHolds (no_overlapping_1 jssp j1 j2 m) a ∧
      conHolds (no_overlapping_2 jssp j1 j2 m) a)

/-- Pyomo solver execution statuses (`pyo.SolverStatus`). -/
inductive SolverStatus where
  | ok
  | warning
  | error
  | aborted
  | unknown
deriving DecidableEq

/-- Pyomo termination conditions (`pyo.TerminationCondition`), collapsed to
the cases `solve_model` distinguishes. -/
inductive TerminationCondition where
  | optimal
  | infeasible
  | unbounded
  | maxTimeLimit
  | other
deriving DecidableEq

/-- The part of `res.solver` inspected by `solve_model`. -/
structure SolverResult where
  status : SolverStatus
  termination : TerminationCondition

/-- The two exceptions raised by `solve_model`. -/
inductive SolveError where
  | solverNotOk
  | infeasibleSolution
deriving DecidableEq

/-- `solve_model`: check `res.solver.status`, then
`res.solver.termination_condition`, else return the model object itself. -/
def solve_model {α : Type} (model : α) (res : SolverResult) : Except SolveError α :=
  if res.status ≠ SolverStatus.ok then Except.error SolveError.solverNotOk
  else if res.termination ≠ TerminationCondition.optimal then
    Except.error SolveError.infeasibleSolution
  else Except.ok model

/-!
## Schedule extraction (`get_schedule`)

The Python code builds an `M × n` integer matrix `job_order` initialized to
the sentinel `-2`, sorts the job indices by solved start time (Python's
`sorted` is stable and scans dict keys in insertion order `0..n-1`), and
walks the machines `0..M-1` for each job, placing the job at the next free
slot of the first machine whose `alpha` value is `1` and printing a
diagnostic for every further machine whose `alpha` value is `1`.

We embed the matrix and the per-machine slot counters as functions, record
each diagnostic print as the `(job, machine)` pair that triggered it, and
mirror the two nested loops as folds.
-/

/-- The mutable state of the extraction loops: the `job_order` matrix, the
`jobs_assigned_on_machine` counters and the diagnostics printed so far. -/
structure ExtractState where
  mat : Nat → Nat → Int
  counts : Nat → Nat
  diags : List (Nat × Nat)

/-- `job_order[m, jobs_assigned_on_machine[m]] = j` followed by
`jobs_assigned_on_machine[m] += 1`. -/
def placeAt (s : ExtractState) (j m : Nat) : ExtractState :=
  ⟨fun m' k' => if m' = m ∧ k' = s.counts m then Int.ofNat j else s.mat m' k',
   fun m' => if m' = m then s.counts m + 1 else s.counts m',
   s.diags⟩

/-- Record further diagnostic prints. -/
def addDiags (s : ExtractState) (ds : List (Nat × Nat)) : ExtractState :=
  ⟨s.mat, s.counts, s.diags ++ ds⟩

/-- One iteration of the inner `for m in model.machines` loop of
`get_schedule`, carrying the `found` flag. -/
def innerStep (alpha : Nat → Nat → ℚ) (j : Nat) (st : Bool × ExtractState)
    (m : Nat) : Bool × ExtractState :=
  if alpha j m = 1 ∧ st.1 = false then
    (true, placeAt st.2 j m)
  else if st.1 = true ∧ alpha j m = 1 then
    (st.1, addDiags st.2 [(j, m)])
  else
    (st.1, st.2)

/-- The body of the outer `for j in sorted(...)` loop of `get_schedule`. -/
def processJob (alpha : Nat → Nat → ℚ) (M : Nat) (s : ExtractState) (j : Nat) :
    ExtractState :=
  ((List.range M).foldl (innerStep alpha j) (false, s)).2

/-- `np.ones((M, n), dtype=int) * -2`, zeroed counters, nothing printed. -/
def initState : ExtractState :=
  ⟨fun _ _ => (-2 : Int), fun _ => 0, []⟩

/-- `sorted(job_start_times, key=job_start_times.get)`: the job indices
`0..n-1` stably sorted by solved start time (Python's `sorted` is a stable
sort; a stable sort of a given list under a given total preorder is unique,
so any stable sorting algorithm embeds it faithfully). -/
def walkOrder (n : Nat) (t : Nat → ℚ) : List Nat :=
  List.insertionSort (fun a b => t a ≤ t b) (List.range n)

/-- `get_schedule`, as the final state of the two nested loops. -/
def get_schedule (M n : Nat) (t : Nat → ℚ) (alpha : Nat → Nat → ℚ) :
    ExtractState :=
  (walkOrder n t).foldl (processJob alpha M) initState

/-- The first machine in `0..M-1` whose assignment indicator value is `1`
for job `j` — the machine the inner loop places `j` on. -/
def firstAssigned (alpha : Nat → Nat → ℚ) (j M : Nat) : Option Nat :=
  (List.range M).find? (fun m => decide (alpha j m = 1))

/-- The diagnostics printed for job `j`: one per machine with indicator `1`
after the first such machine. -/
def dupDiags (alpha : Nat → Nat → ℚ) (M j : Nat) : List (Nat × Nat) :=
  (((List.range M).filter (fun m => decide (alpha j m = 1))).tail).map
    (fun m => (j, m))

/-- The jobs extraction places on machine `m`, in walk order. -/
def assignedTo (M n : Nat) (t : Nat → ℚ) (alpha : Nat → Nat → ℚ) (m : Nat) :
    List Nat :=
  (walkOrder n t).filter (fun j => decide (firstAssigned alpha j M = some m))

/-- Row `m` of the returned `job_order` matrix, read off as a list of its
`n` slots. -/
def scheduleRow (M n : Nat) (t : Nat → ℚ) (alpha : Nat → Nat → ℚ) (m : Nat) :
    List Int :=
  (List.range n).map (fun k => (get_schedule M n t alpha).mat m k)

/-- The full returned `job_order` matrix as a list of `M` rows. -/
def job_order (M n : Nat) (t : Nat → ℚ) (alpha : Nat → Nat → ℚ) :
    List (List Int) :=
  (List.range M).map (fun m => scheduleRow M n t alpha m)

/-!
## Schedule validation (`validate_schedule`)

The schedule handed to the validator is a mapping machine → list of
`(job index, start time, end time)` triples (`schedule_type`); sentinel job
indices `-1` and `-2` are skipped; the first non-sentinel entry whose start
time differs from `model.t[job].value` is printed together with both values
and makes the verdict `False`.
-/

/-- One machine's entries: scan `for job_idx, start_time, end_time in jobs`,
returning the first mismatch as `(machine, job, expected, got)`. -/
def rowMismatch (t : Nat → ℚ) (machine : Nat) :
    List (Int × ℚ × ℚ) → Option (Nat × Int × ℚ × ℚ)
  | [] => none
  | (job_idx, start_time, _) :: rest =>
    if job_idx = -1 ∨ job_idx = -2 then rowMismatch t machine rest
    else if t job_idx.toNat ≠ start_time then
      some (machine, job_idx, t job_idx.toNat, start_time)
    else rowMismatch t machine rest

/-- Scan `for machine, jobs in schedule.items()`, returning the first
mismatch found. -/
def scheduleMismatch (t : Nat → ℚ) :
    List (Nat × List (Int × ℚ × ℚ)) → Option (Nat × Int × ℚ × ℚ)
  | [] => none
  | (machine, jobs) :: rest =>
    match rowMismatch t machine jobs with
    | some r => some r
    | none => scheduleMismatch t rest

/-- `validate_schedule`: `True` iff the scan found no mismatch. -/
def validate_schedule (t : Nat → ℚ)
    (schedule : List (Nat × List (Int × ℚ × ℚ))) : Bool :=
  (scheduleMismatch t schedule).isNone

/-- Modelled from the spec: the spec's §4.4/§9 validator compares recorded
and solver start times "with solver-appropriate tolerance ... rather than
bit-exact equality"; this tolerance-based comparison is not implemented in
`src` and is written here only to be compared with `validate_schedule`. -/
def validate_schedule_tol (eps : ℚ) (t : Nat → ℚ)
    (schedule : List (Nat × List (Int × ℚ × ℚ))) : Bool :=
  schedule.all (fun p =>
    p.2.all (fun e =>
      if e.1 = -1 ∨ e.1 = -2 then true
      else decide (|t e.1.toNat - e.2.1| ≤ eps)))

/-!
## Concrete problem instances used by the witness theorems
-/

/-- Two jobs that share eligible machine 0; job 1 depends on job 0. -/
def jsspShared : JobShopProblem :=
  ⟨[⟨[(0, 10)], [], 0⟩, ⟨[(0, 5)], [0], 0⟩], 1, [[0, 0], [0, 0]]⟩

/-- Two jobs on disjoint machines (0 and 1); no dependencies. -/
def jsspDisjoint : JobShopProblem :=
  ⟨[⟨[(0, 10)], [], 0⟩, ⟨[(1, 5)], [], 0⟩], 2, [[0, 0], [0, 0]]⟩

/-- One job with an empty eligible-machine set. -/
def jsspEmpty : JobShopProblem := ⟨[⟨[], [], 0⟩], 1, [[0]]⟩

/-- Solved start times for a two-job instance: job 0 at 5, job 1 at 0. -/
def tTwoJobs : Nat → ℚ := fun j => if j = 0 then 5 else 0

/-- All start times zero. -/
def tZero : Nat → ℚ := fun _ => 0

/-- Assignment indicator values all equal to 1. -/
def alphaAll1 : Nat → Nat → ℚ := fun _ _ => 1

/-- Assignment indicator values relaxed to 999/1000 (a binary reported
slightly below 1). -/
def alphaRelaxed : Nat → Nat → ℚ := fun _ _ => Rat.divInt 999 1000

/-- A one-entry schedule whose recorded start time deviates from the
solver's value `tZero 0 = 0` by `10⁻¹²`. -/
def schedTiny : List (Nat × List (Int × ℚ × ℚ)) :=
  [(0, [((0 : Int), Rat.divInt 1 1000000000000, 10)])]

/-!
## Claim theorems: model builder and solver adapter
-/

/-- C1: for distinct jobs `j1, j2` and a machine `m` eligible for both, the
model contains the two big-M mutual-exclusion inequalities of
`no_overlapping_1` and `no_overlapping_2` exactly as the spec writes them;
for a pair with no shared eligible machine, no such constraint is generated
for any machine of the model. -/
theorem no_overlap_pair_constraints (jssp : JobShopProblem) (j1 j2 : Nat) :
    (∀ m, j1 ≠ j2 → (jssp.job j1).eligible m = true →
      (jssp.job j2).eligible m = true →
      generatesCon (no_overlapping_1 jssp j1 j2 m) (fun a =>
        a.t j1 ≥
          a.t j2 + (jssp.job j2).duration m + jssp.setup j2 j1 -
            (2 - a.alpha j1 m - a.alpha j2 m + a.beta j1 j2) * H) ∧
      generatesCon (no_overlapping_2 jssp j1 j2 m) (fun a =>
        a.t j2 ≥
          a.t j1 + (jssp.job j1).duration m + jssp.setup j1 j2 -
            (3 - a.alpha j1 m - a.alpha j2 m - a.beta j1 j2) * H)) ∧
    ((∀ m < jssp.machines, ¬((jssp.job j1).eligible m = true ∧
        (jssp.job j2).eligible m = true)) →
      ∀ m < jssp.machines,
        no_overlapping_1 jssp j1 j2 m = none ∧
          no_overlapping_2 jssp j1 j2 m = none) := by
  constructor
  · intro m hne h1 h2
    constructor
    · exact ⟨_, by simp [no_overlapping_1, hne, h1, h2], fun a => Iff.rfl⟩
    · exact ⟨_, by simp [no_overlapping_2, hne, h1, h2], fun a => Iff.rfl⟩
  · intro hns m hm
    rcases not_and_or.mp (hns m hm) with h | h
    · have h' : (jssp.job j1).eligible m = false := by
        cases hb : (jssp.job j1).eligible m
        · rfl
        · exact absurd hb h
      constructor
      · simp [no_overlapping_1, h']
      · simp [no_overlapping_2, h']
    · have h' : (jssp.job j2).eligible m = false := by
        cases hb : (jssp.job j2).eligible m
        · rfl
        · exact absurd hb h
      constructor
      · simp [no_overlapping_1, h']
      · simp [no_overlapping_2, h']

/-- Witness for C1 on concrete instances: a shared machine generates both
inequalities, disjoint machines generate none. -/
theorem no_overlap_pair_constraints_witness :
    ((0 : Nat) ≠ 1 ∧ (jsspShared.job 0).eligible 0 = true ∧
      (jsspShared.job 1).eligible 0 = true ∧
      (∀ m < jsspDisjoint.machines, ¬((jsspDisjoint.job 0).eligible m = true ∧
        (jsspDisjoint.job 1).eligible m = true))) ∧
    (generatesCon (no_overlapping_1 jsspShared 0 1 0) (fun a =>
        a.t 0 ≥
          a.t 1 + (jsspShared.job 1).duration 0 + jsspShared.setup 1 0 -
            (2 - a.alpha 0 0 - a.alpha 1 0 + a.beta 0 1) * H) ∧
      generatesCon (no_overlapping_2 jsspShared 0 1 0) (fun a =>
        a.t 1 ≥
          a.t 0 + (jsspShared.job 0).duration 0 + jsspShared.setup 0 1 -
            (3 - a.alpha 0 0 - a.alpha 1 0 - a.beta 0 1) * H)) ∧
    (∀ m < jsspDisjoint.machines,
      no_overlapping_1 jsspDisjoint 0 1 m = none ∧
        no_overlapping_2 jsspDisjoint 0 1 m = none) :=
  ⟨⟨by decide, by decide, by decide, by decide⟩,
   (no_overlap_pair_constraints jsspShared 0 1).1 0 (by decide) (by decide)
     (by decide),
   (no_overlap_pair_constraints jsspDisjoint 0 1).2 (by decide)⟩

/-- Helper: in the faithful regime — at least one eligible machine — the
`one_machine_per_job` rule is the relational expression embedded by
`one_machine_per_job`. -/
theorem one_machine_per_job_rule_expr (jssp : JobShopProblem) (j : Nat)
    (h : eligibleMachines jssp j ≠ []) :
    one_machine_per_job_rule jssp j =
      RuleResult.expr (fun a => one_machine_per_job jssp j a) := by
  rw [one_machine_per_job_rule, if_neg h]
  rfl

/-- C2 (code bug): for a job with an empty eligible-machine set the
`one_machine_per_job` rule's `quicksum` ranges over no machines and yields
the plain int `0`, so the rule returns the Python bool `0 == 1 = False`
instead of a Pyomo expression; `Constraint` construction then raises
`ValueError` ("trivial Boolean") and `generate_model` aborts at build
time — `solve_model` is never reached. This contradicts the claimed (and
spec-intended) behavior of building the model successfully and surfacing
the data error only as solver infeasibility at the solve step. -/
theorem empty_machine_set_build_error (jssp : JobShopProblem) (j : Nat)
    (hj : j < jssp.njobs) (hempty : (jssp.job j).available_machines = []) :
    one_machine_per_job_rule jssp j = RuleResult.pyBool false ∧
    generate_model jssp = Except.error PyomoError.trivialConstraintBool := by
  have helig : eligibleMachines jssp j = [] := by
    simp [eligibleMachines, Job.eligible, hempty, List.lookup]
  have hdec : decide ((0 : ℚ) = 1) = false := by decide
  have hrule : one_machine_per_job_rule jssp j = RuleResult.pyBool false := by
    rw [one_machine_per_job_rule, if_pos helig, hdec]
  refine ⟨hrule, ?_⟩
  have hany : (List.range jssp.njobs).any
      (fun j => ruleIsTrivialBool (one_machine_per_job_rule jssp j)) = true := by
    rw [List.any_eq_true]
    refine ⟨j, List.mem_range.mpr hj, ?_⟩
    rw [hrule]
    rfl
  rw [generate_model, if_pos hany]

/-- Witness for C2 at the failing input: one job, empty eligible-machine
set. -/
theorem empty_machine_set_build_error_witness :
    (0 < jsspEmpty.njobs ∧ (jsspEmpty.job 0).available_machines = []) ∧
    (one_machine_per_job_rule jsspEmpty 0 = RuleResult.pyBool false ∧
      generate_model jsspEmpty =
        Except.error PyomoError.trivialConstraintBool) :=
  ⟨⟨by decide, by decide⟩,
   empty_machine_set_build_error jsspEmpty 0 (by decide) (by decide)⟩

/-- C3: every job's `calculate_tardiness` constraint is the one-sided
inequality of the spec, with the assigned-machine duration linearized as a
sum over eligible machines, and the floor at 0 comes from the
`NonNegativeReals` domain of the `tardiness` variable. -/
theorem tardiness_constraint_spec (jssp : JobShopProblem) (j : Nat)
    (hj : j < jssp.njobs) :
    (∀ a, calculate_tardiness jssp j a ↔
      a.tardiness j ≥
        a.t j +
          ((eligibleMachines jssp j).map
            (fun m => a.alpha j m * (jssp.job j).duration m)).sum -
          (jssp.job j).days_till_delivery * 24 * 60) ∧
    (∀ a, domains jssp a → 0 ≤ a.tardiness j) :=
  ⟨fun _ => Iff.rfl, fun _ hd => (hd.1 j hj).2⟩

/-- Witness for C3 on a concrete instance. -/
theorem tardiness_constraint_spec_witness :
    (0 < jsspShared.njobs) ∧
    ((∀ a, calculate_tardiness jsspShared 0 a ↔
      a.tardiness 0 ≥
        a.t 0 +
          ((eligibleMachines jsspShared 0).map
            (fun m => a.alpha 0 m * (jsspShared.job 0).duration m)).sum -
          (jsspShared.job 0).days_till_delivery * 24 * 60) ∧
    (∀ a, domains jsspShared a → 0 ≤ a.tardiness 0)) :=
  ⟨by decide, tardiness_constraint_spec jsspShared 0 (by decide)⟩

/-- C4: every job's `one_machine_per_job` constraint equates the sum of its
eligible assignment indicators to 1, and every ineligible (job, machine)
pair gets the explicit equality constraint `alpha[j,m] == 0` (eligible pairs
are skipped by that rule). -/
theorem single_assignment_constraints (jssp : JobShopProblem) (j : Nat)
    (_hj : j < jssp.njobs) :
    (∀ a, one_machine_per_job jssp j a ↔
      ((eligibleMachines jssp j).map (fun m => a.alpha j m)).sum = 1) ∧
    (∀ m, (jssp.job j).eligible m = false →
      generatesCon (alpha_zero_if_not_available jssp j m)
        (fun a => a.alpha j m = 0)) ∧
    (∀ m, (jssp.job j).eligible m = true →
      alpha_zero_if_not_available jssp j m = none) := by
  refine ⟨fun _ => Iff.rfl, ?_, ?_⟩
  · intro m hm
    exact ⟨_, by simp [alpha_zero_if_not_available, hm], fun a => Iff.rfl⟩
  · intro m hm
    simp [alpha_zero_if_not_available, hm]

/-- Witness for C4 on a concrete instance with an ineligible machine. -/
theorem single_assignment_constraints_witness :
    (0 < jsspDisjoint.njobs ∧ (jsspDisjoint.job 0).eligible 1 = false ∧
      (jsspDisjoint.job 0).eligible 0 = true) ∧
    (∀ a, one_machine_per_job jsspDisjoint 0 a ↔
      ((eligibleMachines jsspDisjoint 0).map (fun m => a.alpha 0 m)).sum = 1) ∧
    generatesCon (alpha_zero_if_not_available jsspDisjoint 0 1)
      (fun a => a.alpha 0 1 = 0) ∧
    alpha_zero_if_not_available jsspDisjoint 0 0 = none := by
  have h := single_assignment_constraints jsspDisjoint 0 (by decide)
  exact ⟨⟨by decide, by decide, by decide⟩, h.1, h.2.1 1 (by decide),
    h.2.2 0 (by decide)⟩

/-- C5: a `precedence_order` constraint is generated exactly for the pairs
`(j1, j2)` with `j2` in `j1`'s dependency set, and it is the linearized
inequality of the spec. -/
theorem precedence_constraint_spec (jssp : JobShopProblem) (j1 j2 : Nat) :
    (j2 ∈ (jssp.job j1).dependencies →
      generatesCon (precedence_order jssp j1 j2) (fun a =>
        a.t j1 ≥
          a.t j2 +
            ((eligibleMachines jssp j2).map
              (fun m => a.alpha j2 m * (jssp.job j2).duration m)).sum)) ∧
    (j2 ∉ (jssp.job j1).dependencies → precedence_order jssp j1 j2 = none) := by
  constructor
  · intro hmem
    have hlen : (jssp.job j1).dependencies.length > 0 :=
      List.length_pos.mpr (List.ne_nil_of_mem hmem)
    exact ⟨_, by simp [precedence_order, hlen, hmem, assignedDuration],
      fun a => Iff.rfl⟩
  · intro hmem
    simp [precedence_order, hmem]

/-- Witness for C5: job 1 of `jsspShared` depends on job 0; job 0 has no
dependencies. -/
theorem precedence_constraint_spec_witness :
    ((0 : Nat) ∈ (jsspShared.job 1).dependencies ∧
      (1 : Nat) ∉ (jsspShared.job 0).dependencies) ∧
    generatesCon (precedence_order jsspShared 1 0) (fun a =>
      a.t 1 ≥
        a.t 0 +
          ((eligibleMachines jsspShared 0).map
            (fun m => a.alpha 0 m * (jsspShared.job 0).duration m)).sum) ∧
    precedence_order jsspShared 0 1 = none :=
  ⟨⟨by decide, by decide⟩,
   (precedence_constraint_spec jsspShared 1 0).1 (by decide),
   (precedence_constraint_spec jsspShared 0 1).2 (by decide)⟩

/-- C6: `solve_model` raises `Solver not ok` on a non-ok status, raises
`Infeasible solution` on an ok status with a non-optimal termination, and on
success returns the original model object itself (never a different
value). -/
theorem solve_model_spec (α : Type) (model : α) (res : SolverResult) :
    (res.status = SolverStatus.ok →
      res.termination = TerminationCondition.optimal →
      solve_model model res = Except.ok model) ∧
    (res.status ≠ SolverStatus.ok →
      solve_model model res = Except.error SolveError.solverNotOk) ∧
    (res.status = SolverStatus.ok →
      res.termination ≠ TerminationCondition.optimal →
      solve_model model res = Except.error SolveError.infeasibleSolution) ∧
    (∀ m : α, solve_model model res = Except.ok m → m = model) := by
  refine ⟨?_, ?_, ?_, ?_⟩
  · intro h1 h2
    simp [solve_model, h1, h2]
  · intro h1
    simp [solve_model, h1]
  · intro h1 h2
    simp [solve_model, h1, h2]
  · intro m hm
    by_cases h1 : res.status = SolverStatus.ok
    · by_cases h2 : res.termination = TerminationCondition.optimal
      · simp [solve_model, h1, h2] at hm
        exact hm.symm
      · simp [solve_model, h1, h2] at hm
    · simp [solve_model, h1] at hm

/-- Witness for C6 at concrete solver results. -/
theorem solve_model_spec_witness :
    solve_model () ⟨SolverStatus.ok, TerminationCondition.optimal⟩ =
      Except.ok () ∧
    solve_model () ⟨SolverStatus.error, TerminationCondition.optimal⟩ =
      Except.error SolveError.solverNotOk ∧
    solve_model () ⟨SolverStatus.ok, TerminationCondition.maxTimeLimit⟩ =
      Except.error SolveError.infeasibleSolution :=
  ⟨(solve_model_spec Unit () ⟨SolverStatus.ok, TerminationCondition.optimal⟩).1
      rfl rfl,
   (solve_model_spec Unit ()
      ⟨SolverStatus.error, TerminationCondition.optimal⟩).2.1 (by decide),
   (solve_model_spec Unit ()
      ⟨SolverStatus.ok, TerminationCondition.maxTimeLimit⟩).2.2.1 rfl
     (by decide)⟩

/-!
## Extraction: characterizing the two nested loops
-/

/-- After the inner loop has found a machine, the remaining iterations only
print a diagnostic for each further machine whose indicator is 1. -/
theorem foldl_innerStep_found (alpha : Nat → Nat → ℚ) (j : Nat) :
    ∀ (ms : List Nat) (s : ExtractState),
      ms.foldl (innerStep alpha j) (true, s) =
        (true, addDiags s
          ((ms.filter (fun m => decide (alpha j m = 1))).map (fun m => (j, m)))) := by
  intro ms
  induction ms with
  | nil => intro s; simp [addDiags]
  | cons m ms ih =>
    intro s
    by_cases h : alpha j m = 1
    · simp only [List.foldl_cons, innerStep, h, true_and, and_false, if_false,
        if_true, Bool.true_eq_false, and_true, ite_false, ite_true]
      rw [List.filter_cons_of_pos (by simp [h]), ih]
      simp [addDiags, List.append_assoc]
    · simp only [List.foldl_cons, innerStep, h, false_and, if_false, and_false,
        ite_false]
      rw [List.filter_cons_of_neg (by simp [h]), ih]

/-- Helper: reduce one step of the not-yet-found inner scan. -/
theorem innerStep_notFound_pos {alpha : Nat → Nat → ℚ} {j m : Nat}
    (h : alpha j m = 1) (s : ExtractState) :
    innerStep alpha j (false, s) m = (true, placeAt s j m) := by
  simp [innerStep, h]

/-- Helper: one step of the not-yet-found inner scan on a non-matching
machine. -/
theorem innerStep_notFound_neg {alpha : Nat → Nat → ℚ} {j m : Nat}
    (h : ¬alpha j m = 1) (s : ExtractState) :
    innerStep alpha j (false, s) m = (false, s) := by
  simp [innerStep, h]

/-- Before the inner loop has found a machine, it scans for the first
machine with indicator 1, places the job there, and prints a diagnostic for
every later machine with indicator 1. -/
theorem foldl_innerStep_scan (alpha : Nat → Nat → ℚ) (j : Nat) :
    ∀ (ms : List Nat) (s : ExtractState),
      ms.foldl (innerStep alpha j) (false, s) =
        match ms.find? (fun m => decide (alpha j m = 1)) with
        | none => (false, s)
        | some m =>
          (true, addDiags (placeAt s j m)
            (((ms.filter (fun m => decide (alpha j m = 1))).tail).map
              (fun m => (j, m)))) := by
  intro ms
  induction ms with
  | nil => intro s; rfl
  | cons m ms ih =>
    intro s
    by_cases h : alpha j m = 1
    · rw [List.find?_cons_of_pos _ (by simp [h]),
        List.filter_cons_of_pos (by simp [h])]
      simp only [List.foldl_cons, innerStep, h, true_and, Bool.false_eq_true,
        and_false, if_false, ite_true, if_true, List.tail_cons]
      rw [foldl_innerStep_found]
    · rw [List.find?_cons_of_neg _ (by simp [h]),
        List.filter_cons_of_neg (by simp [h])]
      simp only [List.foldl_cons, innerStep, h, false_and, and_false, if_false,
        ite_false]
      exact ih s

/-- `processJob` when no machine has indicator value 1: the state is
unchanged. -/
theorem processJob_none {alpha : Nat → Nat → ℚ} {M j : Nat}
    (h : firstAssigned alpha j M = none) (s : ExtractState) :
    processJob alpha M s j = s := by
  rw [processJob, foldl_innerStep_scan]
  rw [firstAssigned] at h
  rw [h]

/-- `processJob` when machine `m` is the first with indicator value 1: the
job is placed at `m`'s next free slot and the duplicate diagnostics are
appended. -/
theorem processJob_some {alpha : Nat → Nat → ℚ} {M j m : Nat}
    (h : firstAssigned alpha j M = some m) (s : ExtractState) :
    processJob alpha M s j = addDiags (placeAt s j m) (dupDiags alpha M j) := by
  rw [processJob, foldl_innerStep_scan]
  rw [firstAssigned] at h
  rw [h, dupDiags]

/-- If the inner scan finds no machine, the job triggers no diagnostics. -/
theorem dupDiags_eq_nil {alpha : Nat → Nat → ℚ} {M j : Nat}
    (h : firstAssigned alpha j M = none) : dupDiags alpha M j = [] := by
  rw [dupDiags]
  have : (List.range M).filter (fun m => decide (alpha j m = 1)) = [] := by
    rw [List.filter_eq_nil_iff]
    intro a ha
    exact List.find?_eq_none.mp h a ha
  rw [this]
  rfl

/-- Helper: reading a list extended by one element at position `k`. -/
theorem getD_append_single (l : List Int) (v d : Int) (k : Nat) :
    (l ++ [v]).getD k d = if k = l.length then v else l.getD k d := by
  rcases lt_trichotomy k l.length with hk | hk | hk
  · rw [if_neg (Nat.ne_of_lt hk), List.getD_eq_getElem?_getD,
      List.getD_eq_getElem?_getD, List.getElem?_append_left hk]
  · subst hk
    rw [if_pos rfl, List.getD_eq_getElem?_getD,
      List.getElem?_append_right (Nat.le_refl _), Nat.sub_self]
    rfl
  · rw [if_neg (Nat.ne_of_gt hk), List.getD_eq_getElem?_getD,
      List.getD_eq_getElem?_getD, List.getElem?_eq_none, List.getElem?_eq_none]
    · exact Nat.le_of_lt hk
    · simp only [List.length_append, List.length_cons, List.length_nil]
      omega

/-- The state after the outer loop has processed the jobs `ps`: slot
counters count the jobs placed on each machine, each matrix row holds the
jobs placed on that machine in processing order followed by `-2` sentinels,
and the diagnostics are exactly the duplicate-assignment prints. -/
theorem extract_invariant (alpha : Nat → Nat → ℚ) (M : Nat) (ps : List Nat) :
    (∀ m, (ps.foldl (processJob alpha M) initState).counts m =
      (ps.filter (fun j => decide (firstAssigned alpha j M = some m))).length) ∧
    (∀ m k, (ps.foldl (processJob alpha M) initState).mat m k =
      ((ps.filter (fun j => decide (firstAssigned alpha j M = some m))).map
        Int.ofNat).getD k (-2)) ∧
    (ps.foldl (processJob alpha M) initState).diags =
      ps.flatMap (fun j => dupDiags alpha M j) := by
  induction ps using List.reverseRecOn with
  | nil =>
    refine ⟨fun m => rfl, fun m k => ?_, rfl⟩
    simp [initState, List.getD]
  | append_singleton ps j ih =>
    obtain ⟨ihc, ihm, ihd⟩ := ih
    simp only [List.foldl_append, List.foldl_cons, List.foldl_nil]
    cases hfa : firstAssigned alpha j M with
    | none =>
      rw [processJob_none hfa]
      have hd0 : ∀ m', decide (firstAssigned alpha j M = some m') = false := by
        intro m'
        rw [hfa]
        simp
      have hsing : ∀ m',
          List.filter (fun jj => decide (firstAssigned alpha jj M = some m')) [j] =
            [] := by
        intro m'
        simp [List.filter_cons, hd0 m']
      refine ⟨fun m => ?_, fun m k => ?_, ?_⟩
      · rw [List.filter_append, hsing m, List.append_nil, ihc]
      · rw [List.filter_append, hsing m, List.append_nil, ihm]
      · rw [List.flatMap_append, ihd]
        simp [dupDiags_eq_nil hfa]
    | some m0 =>
      rw [processJob_some hfa]
      have hdpos : decide (firstAssigned alpha j M = some m0) = true := by
        rw [hfa]
        simp
      have hdneg : ∀ m', m' ≠ m0 →
          decide (firstAssigned alpha j M = some m') = false := by
        intro m' hm'
        rw [hfa]
        simp only [decide_eq_false_iff_not]
        exact fun h => hm' (Option.some_inj.mp h).symm
      have hpos :
          List.filter (fun jj => decide (firstAssigned alpha jj M = some m0)) [j] =
            [j] := by
        simp [List.filter_cons, hdpos]
      have hneg : ∀ m', m' ≠ m0 →
          List.filter (fun jj => decide (firstAssigned alpha jj M = some m')) [j] =
            [] := by
        intro m' hm'
        simp [List.filter_cons, hdneg m' hm']
      refine ⟨fun m => ?_, fun m k => ?_, ?_⟩
      · by_cases hm : m = m0
        · subst hm
          show (if m = m then (ps.foldl (processJob alpha M) initState).counts m + 1
            else (ps.foldl (processJob alpha M) initState).counts m) = _
          rw [if_pos rfl, ihc, List.filter_append, hpos]
          simp
        · show (if m = m0 then (ps.foldl (processJob alpha M) initState).counts m0 + 1
            else (ps.foldl (processJob alpha M) initState).counts m) = _
          rw [if_neg hm, ihc, List.filter_append, hneg m hm, List.append_nil]
      · by_cases hm : m = m0
        · subst hm
          rw [List.filter_append, hpos, List.map_append, List.map_cons,
            List.map_nil, getD_append_single]
          by_cases hk : k = (ps.foldl (processJob alpha M) initState).counts m
          · show (if m = m ∧ k = (ps.foldl (processJob alpha M) initState).counts m
              then Int.ofNat j
              else (ps.foldl (processJob alpha M) initState).mat m k) = _
            rw [if_pos ⟨rfl, hk⟩, if_pos (by rw [List.length_map, ← ihc]; exact hk)]
          · show (if m = m ∧ k = (ps.foldl (processJob alpha M) initState).counts m
              then Int.ofNat j
              else (ps.foldl (processJob alpha M) initState).mat m k) = _
            rw [if_neg (fun hc => hk hc.2), ihm,
              if_neg (by rw [List.length_map, ← ihc]; exact hk)]
        · show (if m = m0 ∧ k = (ps.foldl (processJob alpha M) initState).counts m0
            then Int.ofNat j
            else (ps.foldl (processJob alpha M) initState).mat m k) = _
          rw [if_neg (fun hc => hm hc.1), ihm, List.filter_append, hneg m hm,
            List.append_nil]
      · show (ps.foldl (processJob alpha M) initState).diags ++
          dupDiags alpha M j = _
        rw [ihd, List.flatMap_append]
        simp

/-- Each row of the extracted matrix consists of the jobs placed on that
machine, in processing order, followed by `-2` sentinels. -/
theorem scheduleRow_eq (M n : Nat) (t : Nat → ℚ) (alpha : Nat → Nat → ℚ)
    (m : Nat) :
    scheduleRow M n t alpha m =
      (assignedTo M n t alpha m).map Int.ofNat ++
        List.replicate (n - (assignedTo M n t alpha m).length) (-2 : Int) := by
  have hlen : (assignedTo M n t alpha m).length ≤ n := by
    rw [assignedTo]
    calc (List.filter _ (walkOrder n t)).length
        ≤ (walkOrder n t).length := List.length_filter_le _ _
      _ = n := by rw [walkOrder, List.length_insertionSort, List.length_range]
  have hmat := (extract_invariant alpha M (walkOrder n t)).2.1 m
  apply List.ext_getElem
  · simp only [scheduleRow, List.length_map, List.length_range,
      List.length_append, List.length_replicate]
    omega
  · intro k h1 h2
    have hrow : (scheduleRow M n t alpha m)[k] =
        ((assignedTo M n t alpha m).map Int.ofNat).getD k (-2) := by
      simp only [scheduleRow, List.getElem_map, List.getElem_range]
      exact hmat k
    rw [hrow]
    by_cases hk : k < ((assignedTo M n t alpha m).map Int.ofNat).length
    · rw [List.getD_eq_getElem _ _ hk, List.getElem_append_left hk]
    · have hk' : ((assignedTo M n t alpha m).map Int.ofNat).length ≤ k :=
        Nat.le_of_not_lt hk
      rw [List.getD_eq_default _ _ hk', List.getElem_append_right hk']
      rw [List.getElem_replicate]

/-- The walk order is a permutation of the job indices. -/
theorem walkOrder_perm (n : Nat) (t : Nat → ℚ) :
    (walkOrder n t).Perm (List.range n) :=
  List.perm_insertionSort _ _

/-- The walk order has no duplicate job indices. -/
theorem walkOrder_nodup (n : Nat) (t : Nat → ℚ) : (walkOrder n t).Nodup :=
  ((walkOrder_perm n t).nodup_iff).mpr (List.nodup_range _)

/-- The walk order is sorted by start time. -/
theorem walkOrder_sorted (n : Nat) (t : Nat → ℚ) :
    (walkOrder n t).Pairwise (fun a b => t a ≤ t b) := by
  haveI : IsTotal Nat (fun a b => t a ≤ t b) := ⟨fun a b => le_total (t a) (t b)⟩
  haveI : IsTrans Nat (fun a b => t a ≤ t b) :=
    ⟨fun _ _ _ hab hbc => le_trans hab hbc⟩
  exact List.sorted_insertionSort _ _

/-- Helper: a strictly increasing pair below `n` is a sublist of
`range n`. -/
theorem pairSublistRange {a b n : Nat} (hab : a < b) (hb : b < n) :
    List.Sublist [a, b] (List.range n) := by
  have h1 : List.Sublist [a] (List.range b) :=
    List.singleton_sublist.mpr (List.mem_range.mpr hab)
  have h2 : List.Sublist ([a] ++ [b]) (List.range b ++ [b]) :=
    h1.append (List.Sublist.refl [b])
  rw [← List.range_succ] at h2
  exact h2.trans (List.range_sublist.mpr hb)

/-- Helper: in a duplicate-free list, two elements cannot occur in both
orders. -/
theorem pairSublistAntisymm : ∀ {l : List Nat}, l.Nodup →
    ∀ {a b : Nat}, List.Sublist [a, b] l → List.Sublist [b, a] l → a = b := by
  intro l
  induction l with
  | nil =>
    intro _ a b h1 _
    exact absurd h1 (by simp)
  | cons c l ih =>
    intro hnd a b h1 h2
    rw [List.nodup_cons] at hnd
    obtain ⟨hc, hl⟩ := hnd
    cases h1 with
    | cons _ h1' =>
      cases h2 with
      | cons _ h2' => exact ih hl h1' h2'
      | cons₂ _ h2' =>
        have hbl : c ∈ l := h1'.subset (by simp)
        exact absurd hbl hc
    | cons₂ _ h1' =>
      cases h2 with
      | cons _ h2' =>
        have hal : c ∈ l := h2'.subset (by simp)
        exact absurd hal hc
      | cons₂ _ h2' => rfl

/-- The walk order is sorted by start time with ties broken by the original
job index — the defining property of Python's stable `sorted`. -/
theorem walkOrder_pairwise_lex (n : Nat) (t : Nat → ℚ) :
    (walkOrder n t).Pairwise
      (fun a b => t a < t b ∨ (t a = t b ∧ a < b)) := by
  rw [List.pairwise_iff_forall_sublist]
  intro a b hsub
  have hle : t a ≤ t b :=
    List.pairwise_iff_forall_sublist.mp (walkOrder_sorted n t) hsub
  have hne : a ≠ b :=
    List.pairwise_iff_forall_sublist.mp (walkOrder_nodup n t) hsub
  rcases lt_or_eq_of_le hle with hlt | heq
  · exact Or.inl hlt
  · refine Or.inr ⟨heq, ?_⟩
    by_contra hab
    have hba : b < a := Nat.lt_of_le_of_ne (Nat.not_lt.mp hab) (Ne.symm hne)
    have haR : a ∈ List.range n :=
      (walkOrder_perm n t).subset (hsub.subset (by simp))
    have hpair : List.Sublist [b, a] (List.range n) :=
      pairSublistRange hba (List.mem_range.mp haR)
    have hstab : List.Sublist [b, a] (walkOrder n t) := by
      rw [walkOrder]
      exact List.pair_sublist_insertionSort (le_of_eq heq.symm) hpair
    exact hne (pairSublistAntisymm (walkOrder_nodup n t) hsub hstab)

/-- C7: extraction walks the job indices sorted by start time ascending with
ties broken by original index (stable sort); each walked job is appended at
the next free slot of the first machine whose assignment indicator is 1,
so every machine's extracted slot sequence is ordered by non-decreasing
start time (sentinels `-2` fill the remaining slots). -/
theorem extraction_sorted_rows (M n : Nat) (t : Nat → ℚ)
    (alpha : Nat → Nat → ℚ) (m : Nat) (hm : m < M) :
    (walkOrder n t).Perm (List.range n) ∧
    (walkOrder n t).Pairwise (fun a b => t a < t b ∨ (t a = t b ∧ a < b)) ∧
    (∀ j ∈ assignedTo M n t alpha m, alpha j m = 1) ∧
    (job_order M n t alpha)[m]? =
      some ((assignedTo M n t alpha m).map Int.ofNat ++
        List.replicate (n - (assignedTo M n t alpha m).length) (-2 : Int)) ∧
    (assignedTo M n t alpha m).Pairwise (fun j1 j2 => t j1 ≤ t j2) := by
  refine ⟨walkOrder_perm n t, walkOrder_pairwise_lex n t, ?_, ?_, ?_⟩
  · intro j hj
    rw [assignedTo] at hj
    have hp := List.of_mem_filter hj
    have hfa : firstAssigned alpha j M = some m := of_decide_eq_true hp
    rw [firstAssigned] at hfa
    have := List.find?_some hfa
    exact of_decide_eq_true this
  · rw [job_order, List.getElem?_map, List.getElem?_range hm]
    show some (scheduleRow M n t alpha m) = _
    rw [scheduleRow_eq]
  · exact (walkOrder_sorted n t).filter _

/-- Witness for C7 on a two-job one-machine instance with start times
5 and 0. -/
theorem extraction_sorted_rows_witness :
    (0 : Nat) < 1 ∧
    ((walkOrder 2 tTwoJobs).Perm (List.range 2) ∧
      (walkOrder 2 tTwoJobs).Pairwise
        (fun a b => tTwoJobs a < tTwoJobs b ∨ (tTwoJobs a = tTwoJobs b ∧ a < b)) ∧
      (∀ j ∈ assignedTo 1 2 tTwoJobs alphaAll1 0, alphaAll1 j 0 = 1) ∧
      (job_order 1 2 tTwoJobs alphaAll1)[0]? =
        some ((assignedTo 1 2 tTwoJobs alphaAll1 0).map Int.ofNat ++
          List.replicate (2 - (assignedTo 1 2 tTwoJobs alphaAll1 0).length)
            (-2 : Int)) ∧
      (assignedTo 1 2 tTwoJobs alphaAll1 0).Pairwise
        (fun j1 j2 => tTwoJobs j1 ≤ tTwoJobs j2)) :=
  ⟨by decide, extraction_sorted_rows 1 2 tTwoJobs alphaAll1 0 (by decide)⟩

/-- Helper: `find?` over `range M` returns the least index satisfying the
predicate. -/
theorem find?_range_first : ∀ (M : Nat) (p : Nat → Bool) (mf : Nat),
    (List.range M).find? p = some mf → p mf = true ∧ ∀ k < mf, p k = false := by
  intro M
  induction M with
  | zero =>
    intro p mf h
    simp [List.range_zero] at h
  | succ M ih =>
    intro p mf h
    rw [List.range_succ_eq_map] at h
    by_cases h0 : p 0 = true
    · rw [List.find?_cons_of_pos _ h0] at h
      obtain rfl : (0 : Nat) = mf := Option.some_inj.mp h
      exact ⟨h0, fun k hk => absurd hk (Nat.not_lt_zero k)⟩
    · rw [List.find?_cons_of_neg _ (by simpa using h0)] at h
      rw [List.find?_map] at h
      rcases ho : (List.range M).find? (p ∘ Nat.succ) with _ | mf'
      · rw [ho] at h
        simp at h
      · rw [ho] at h
        obtain rfl : Nat.succ mf' = mf := by
          simpa using h
        obtain ⟨hp, hmin⟩ := ih (p ∘ Nat.succ) mf' ho
        refine ⟨hp, ?_⟩
        intro k hk
        cases k with
        | zero => simpa using h0
        | succ k' => exact hmin k' (Nat.lt_of_succ_lt_succ hk)

/-- Helper: the head of `filter p` is the element `find?` returns. -/
theorem filter_head_of_find? {p : Nat → Bool} :
    ∀ {l : List Nat} {mf : Nat}, l.find? p = some mf →
      l.filter p = mf :: (l.filter p).tail := by
  intro l
  induction l with
  | nil =>
    intro mf h
    simp at h
  | cons a l ih =>
    intro mf h
    by_cases ha : p a = true
    · rw [List.find?_cons_of_pos _ ha] at h
      obtain rfl : a = mf := Option.some_inj.mp h
      rw [List.filter_cons_of_pos ha]
      rfl
    · rw [List.find?_cons_of_neg _ (by simpa using ha)] at h
      rw [List.filter_cons_of_neg (by simpa using ha)]
      exact ih h

/-- Helper: counting a job in a row of the extracted matrix counts it among
the jobs placed on that machine. -/
theorem count_scheduleRow (M n : Nat) (t : Nat → ℚ) (alpha : Nat → Nat → ℚ)
    (m j : Nat) :
    (scheduleRow M n t alpha m).count (Int.ofNat j) =
      (assignedTo M n t alpha m).count j := by
  rw [scheduleRow_eq, List.count_append,
    List.count_map_of_injective _ Int.ofNat (fun a b h => Int.ofNat.inj h) j,
    List.count_replicate]
  have : ¬(Int.ofNat j = -2) := fun h => Int.noConfusion h
  simp [this]

/-- C9: when two machines both show assignment value 1 for the same job, a
duplicate-assignment diagnostic is reported for the later machine, but
extraction does not fail: the job is placed exactly once, at the first
machine with value 1 (and on no other machine), and the walk continues. -/
theorem duplicate_assignment_diagnostic (M n : Nat) (t : Nat → ℚ)
    (alpha : Nat → Nat → ℚ) (j m1 m2 : Nat) (hj : j < n) (h12 : m1 < m2)
    (h2M : m2 < M) (ha1 : alpha j m1 = 1) (ha2 : alpha j m2 = 1) :
    (j, m2) ∈ (get_schedule M n t alpha).diags ∧
    ∃ mf, firstAssigned alpha j M = some mf ∧ mf ≤ m1 ∧ alpha j mf = 1 ∧
      (∀ k < mf, alpha j k ≠ 1) ∧
      (scheduleRow M n t alpha mf).count (Int.ofNat j) = 1 ∧
      ∀ m', m' ≠ mf → (scheduleRow M n t alpha m').count (Int.ofNat j) = 0 := by
  have hjwalk : j ∈ walkOrder n t := by
    rw [walkOrder, List.mem_insertionSort]
    exact List.mem_range.mpr hj
  have hex : ∃ x ∈ List.range M, decide (alpha j x = 1) = true :=
    ⟨m1, List.mem_range.mpr (Nat.lt_trans h12 h2M), by simp [ha1]⟩
  obtain ⟨mf, hmf⟩ : ∃ mf,
      (List.range M).find? (fun m => decide (alpha j m = 1)) = some mf :=
    Option.isSome_iff_exists.mp (List.find?_isSome.mpr hex)
  obtain ⟨hpmf, hmin⟩ := find?_range_first M _ mf hmf
  have hfa : firstAssigned alpha j M = some mf := by
    rw [firstAssigned]
    exact hmf
  have hmf1 : mf ≤ m1 := by
    by_contra hlt
    have := hmin m1 (Nat.lt_of_not_le hlt)
    simp [ha1] at this
  have hmem : j ∈ assignedTo M n t alpha mf := by
    rw [assignedTo, List.mem_filter]
    exact ⟨hjwalk, by simp [hfa]⟩
  constructor
  · have hdiags := (extract_invariant alpha M (walkOrder n t)).2.2
    rw [get_schedule, hdiags, List.mem_flatMap]
    refine ⟨j, hjwalk, ?_⟩
    rw [dupDiags, List.mem_map]
    refine ⟨m2, ?_, rfl⟩
    have hfil := filter_head_of_find? hmf
    have h2fil : m2 ∈ (List.range M).filter (fun m => decide (alpha j m = 1)) :=
      List.mem_filter.mpr ⟨List.mem_range.mpr h2M, by simp [ha2]⟩
    rw [hfil] at h2fil
    rcases List.mem_cons.mp h2fil with heq | htail
    · exact absurd heq (Nat.ne_of_gt (Nat.lt_of_le_of_lt hmf1 h12))
    · exact htail
  · refine ⟨mf, hfa, hmf1, of_decide_eq_true hpmf, ?_, ?_, ?_⟩
    · intro k hk
      have := hmin k hk
      simp at this
      exact this
    · rw [count_scheduleRow]
      exact List.count_eq_one_of_mem ((walkOrder_nodup n t).filter _) hmem
    · intro m' hm'
      rw [count_scheduleRow, List.count_eq_zero]
      intro hmem'
      rw [assignedTo, List.mem_filter] at hmem'
      have := of_decide_eq_true hmem'.2
      rw [hfa] at this
      exact hm' (Option.some_inj.mp this).symm

/-- Witness for C9: one job, two machines, both with indicator 1. -/
theorem duplicate_assignment_diagnostic_witness :
    ((0 : Nat) < 1 ∧ (0 : Nat) < 1 ∧ (1 : Nat) < 2 ∧ alphaAll1 0 0 = 1 ∧
      alphaAll1 0 1 = 1) ∧
    ((0, 1) ∈ (get_schedule 2 1 tZero alphaAll1).diags ∧
      ∃ mf, firstAssigned alphaAll1 0 2 = some mf ∧ mf ≤ 0 ∧
        alphaAll1 0 mf = 1 ∧ (∀ k < mf, alphaAll1 0 k ≠ 1) ∧
        (scheduleRow 2 1 tZero alphaAll1 mf).count (Int.ofNat 0) = 1 ∧
        ∀ m', m' ≠ mf →
          (scheduleRow 2 1 tZero alphaAll1 m').count (Int.ofNat 0) = 0) :=
  ⟨⟨by decide, by decide, by decide, by decide, by decide⟩,
   duplicate_assignment_diagnostic 2 1 tZero alphaAll1 0 0 1 (by decide)
     (by decide) (by decide) (by decide) (by decide)⟩

/-- C10: when no machine's indicator value is exactly 1 for a job (for
example a binary relaxed below 1 by solver tolerance), the job is silently
omitted: the inner scan finds nothing, no row of the matrix receives the
job, no diagnostic mentions it, and every row keeps at least one trailing
`-2` sentinel slot unfilled. -/
theorem unassigned_job_silently_omitted (M n : Nat) (t : Nat → ℚ)
    (alpha : Nat → Nat → ℚ) (j : Nat) (hj : j < n)
    (hnone : ∀ m < M, alpha j m ≠ 1) :
    firstAssigned alpha j M = none ∧
    (∀ m', (scheduleRow M n t alpha m').count (Int.ofNat j) = 0) ∧
    (∀ d ∈ (get_schedule M n t alpha).diags, d.1 ≠ j) ∧
    (∀ m', scheduleRow M n t alpha m' =
      (assignedTo M n t alpha m').map Int.ofNat ++
        List.replicate (n - (assignedTo M n t alpha m').length) (-2 : Int) ∧
      0 < n - (assignedTo M n t alpha m').length) := by
  have hjwalk : j ∈ walkOrder n t := by
    rw [walkOrder, List.mem_insertionSort]
    exact List.mem_range.mpr hj
  have hfa : firstAssigned alpha j M = none := by
    rw [firstAssigned, List.find?_eq_none]
    intro x hx
    simp [hnone x (List.mem_range.mp hx)]
  refine ⟨hfa, ?_, ?_, ?_⟩
  · intro m'
    rw [count_scheduleRow, List.count_eq_zero]
    intro hmem'
    rw [assignedTo, List.mem_filter] at hmem'
    have := of_decide_eq_true hmem'.2
    rw [hfa] at this
    exact Option.noConfusion this
  · intro d hd
    have hdiags := (extract_invariant alpha M (walkOrder n t)).2.2
    rw [get_schedule, hdiags, List.mem_flatMap] at hd
    obtain ⟨j', hj', hdj⟩ := hd
    intro heq
    rw [dupDiags, List.mem_map] at hdj
    obtain ⟨mm, hmm, hdeq⟩ := hdj
    have hj'j : j' = j := by
      rw [← hdeq] at heq
      exact heq
    subst hj'j
    rw [show ((List.range M).filter (fun m => decide (alpha j' m = 1))) = []
        from ?_] at hmm
    · exact absurd hmm (List.not_mem_nil mm)
    · rw [List.filter_eq_nil_iff]
      intro x hx
      simp [hnone x (List.mem_range.mp hx)]
  · intro m'
    refine ⟨scheduleRow_eq M n t alpha m', ?_⟩
    have hlt : (assignedTo M n t alpha m').length < n := by
      have : ((walkOrder n t).filter
          (fun jj => decide (firstAssigned alpha jj M = some m'))).length <
          (walkOrder n t).length := by
        rw [List.length_filter_lt_length_iff_exists]
        exact ⟨j, hjwalk, by simp [hfa]⟩
      rw [assignedTo]
      calc ((walkOrder n t).filter _).length
          < (walkOrder n t).length := this
        _ = n := by rw [walkOrder, List.length_insertionSort, List.length_range]
    omega

/-- Witness for C10: one job, one machine, indicator relaxed to 999/1000. -/
theorem unassigned_job_silently_omitted_witness :
    ((0 : Nat) < 1 ∧ ∀ m < 1, alphaRelaxed 0 m ≠ 1) ∧
    (firstAssigned alphaRelaxed 0 1 = none ∧
      (∀ m', (scheduleRow 1 1 tZero alphaRelaxed m').count (Int.ofNat 0) = 0) ∧
      (∀ d ∈ (get_schedule 1 1 tZero alphaRelaxed).diags, d.1 ≠ 0) ∧
      (∀ m', scheduleRow 1 1 tZero alphaRelaxed m' =
        (assignedTo 1 1 tZero alphaRelaxed m').map Int.ofNat ++
          List.replicate (1 - (assignedTo 1 1 tZero alphaRelaxed m').length)
            (-2 : Int) ∧
        0 < 1 - (assignedTo 1 1 tZero alphaRelaxed m').length)) :=
  ⟨⟨by decide, by decide⟩,
   unassigned_job_silently_omitted 1 1 tZero alphaRelaxed 0 (by decide)
     (by decide)⟩

/-!
## Validation: characterizing the scan
-/

/-- Scanning one machine's entries reports nothing iff every non-sentinel
entry's recorded start time equals the solver's value exactly. -/
theorem rowMismatch_none_iff (t : Nat → ℚ) (machine : Nat) :
    ∀ jobs : List (Int × ℚ × ℚ),
      rowMismatch t machine jobs = none ↔
        ∀ e ∈ jobs, e.1 ≠ -1 → e.1 ≠ -2 → t e.1.toNat = e.2.1 := by
  intro jobs
  induction jobs with
  | nil => simp [rowMismatch]
  | cons e rest ih =>
    obtain ⟨ji, st, en⟩ := e
    by_cases hs : ji = -1 ∨ ji = -2
    · rw [show rowMismatch t machine ((ji, st, en) :: rest) =
          rowMismatch t machine rest from by rw [rowMismatch, if_pos hs]]
      rw [ih]
      constructor
      · intro h e he h1 h2
        rcases List.mem_cons.mp he with heq | htail
        · rcases hs with hs | hs
          · exact absurd (heq ▸ hs : e.1 = -1) h1
          · exact absurd (heq ▸ hs : e.1 = -2) h2
        · exact h e htail h1 h2
      · intro h e he
        exact h e (List.mem_cons_of_mem _ he)
    · push_neg at hs
      obtain ⟨hs1, hs2⟩ := hs
      by_cases hm : t ji.toNat ≠ st
      · rw [show rowMismatch t machine ((ji, st, en) :: rest) =
            some (machine, ji, t ji.toNat, st) from by
          rw [rowMismatch, if_neg (not_or.mpr ⟨hs1, hs2⟩), if_pos hm]]
        constructor
        · intro h
          exact absurd h (by simp)
        · intro h
          exact absurd (h (ji, st, en) (List.mem_cons_self _ _) hs1 hs2) hm
      · rw [show rowMismatch t machine ((ji, st, en) :: rest) =
            rowMismatch t machine rest from by
          rw [rowMismatch, if_neg (not_or.mpr ⟨hs1, hs2⟩), if_neg hm]]
        rw [ih]
        constructor
        · intro h e he h1 h2
          rcases List.mem_cons.mp he with heq | htail
          · rw [heq]
            exact not_not.mp hm
          · exact h e htail h1 h2
        · intro h e he
          exact h e (List.mem_cons_of_mem _ he)

/-- A reported row mismatch names the scanned machine, a non-sentinel job of
that row, the solver's value for that job, and the differing recorded
value. -/
theorem rowMismatch_some (t : Nat → ℚ) (machine : Nat) :
    ∀ (jobs : List (Int × ℚ × ℚ)) (r : Nat × Int × ℚ × ℚ),
      rowMismatch t machine jobs = some r →
      r.1 = machine ∧ r.2.1 ≠ -1 ∧ r.2.1 ≠ -2 ∧ r.2.2.1 = t r.2.1.toNat ∧
        r.2.2.1 ≠ r.2.2.2 ∧ ∃ e ∈ jobs, e.1 = r.2.1 ∧ e.2.1 = r.2.2.2 := by
  intro jobs
  induction jobs with
  | nil =>
    intro r h
    simp [rowMismatch] at h
  | cons e rest ih =>
    obtain ⟨ji, st, en⟩ := e
    intro r h
    by_cases hs : ji = -1 ∨ ji = -2
    · rw [show rowMismatch t machine ((ji, st, en) :: rest) =
          rowMismatch t machine rest from by rw [rowMismatch, if_pos hs]] at h
      obtain ⟨h1, h2, h3, h4, h5, e', he', he1, he2⟩ := ih r h
      exact ⟨h1, h2, h3, h4, h5, e', List.mem_cons_of_mem _ he', he1, he2⟩
    · push_neg at hs
      obtain ⟨hs1, hs2⟩ := hs
      by_cases hm : t ji.toNat ≠ st
      · rw [show rowMismatch t machine ((ji, st, en) :: rest) =
            some (machine, ji, t ji.toNat, st) from by
          rw [rowMismatch, if_neg (not_or.mpr ⟨hs1, hs2⟩), if_pos hm]] at h
        obtain rfl : (machine, ji, t ji.toNat, st) = r := Option.some_inj.mp h
        exact ⟨rfl, hs1, hs2, rfl, hm,
          (ji, st, en), List.mem_cons_self _ _, rfl, rfl⟩
      · rw [show rowMismatch t machine ((ji, st, en) :: rest) =
            rowMismatch t machine rest from by
          rw [rowMismatch, if_neg (not_or.mpr ⟨hs1, hs2⟩), if_neg hm]] at h
        obtain ⟨h1, h2, h3, h4, h5, e', he', he1, he2⟩ := ih r h
        exact ⟨h1, h2, h3, h4, h5, e', List.mem_cons_of_mem _ he', he1, he2⟩

/-- The schedule scan reports nothing iff every row's scan reports
nothing. -/
theorem scheduleMismatch_none_iff (t : Nat → ℚ) :
    ∀ sched : List (Nat × List (Int × ℚ × ℚ)),
      scheduleMismatch t sched = none ↔
        ∀ p ∈ sched, rowMismatch t p.1 p.2 = none := by
  intro sched
  induction sched with
  | nil => simp [scheduleMismatch]
  | cons p rest ih =>
    obtain ⟨mach, jobs⟩ := p
    rcases hr : rowMismatch t mach jobs with _ | r
    · rw [show scheduleMismatch t ((mach, jobs) :: rest) =
          scheduleMismatch t rest from by rw [scheduleMismatch, hr]]
      rw [ih]
      constructor
      · intro h p hp
        rcases List.mem_cons.mp hp with heq | htail
        · rw [heq]
          exact hr
        · exact h p htail
      · intro h p hp
        exact h p (List.mem_cons_of_mem _ hp)
    · rw [show scheduleMismatch t ((mach, jobs) :: rest) = some r from by
        rw [scheduleMismatch, hr]]
      constructor
      · intro h
        exact absurd h (by simp)
      · intro h
        exact absurd (h (mach, jobs) (List.mem_cons_self _ _)) (by simp [hr])

/-- A reported schedule mismatch comes from an actual entry of the
schedule. -/
theorem scheduleMismatch_some (t : Nat → ℚ) :
    ∀ (sched : List (Nat × List (Int × ℚ × ℚ))) (r : Nat × Int × ℚ × ℚ),
      scheduleMismatch t sched = some r →
      r.2.1 ≠ -1 ∧ r.2.1 ≠ -2 ∧ r.2.2.1 = t r.2.1.toNat ∧
        r.2.2.1 ≠ r.2.2.2 ∧
        ∃ p ∈ sched, p.1 = r.1 ∧ ∃ e ∈ p.2, e.1 = r.2.1 ∧ e.2.1 = r.2.2.2 := by
  intro sched
  induction sched with
  | nil =>
    intro r h
    simp [scheduleMismatch] at h
  | cons p rest ih =>
    obtain ⟨mach, jobs⟩ := p
    intro r h
    rcases hr : rowMismatch t mach jobs with _ | r0
    · rw [show scheduleMismatch t ((mach, jobs) :: rest) =
          scheduleMismatch t rest from by rw [scheduleMismatch, hr]] at h
      obtain ⟨h1, h2, h3, h4, p', hp', hpm, e', he', he1, he2⟩ := ih r h
      exact ⟨h1, h2, h3, h4, p', List.mem_cons_of_mem _ hp', hpm,
        e', he', he1, he2⟩
    · rw [show scheduleMismatch t ((mach, jobs) :: rest) = some r0 from by
        rw [scheduleMismatch, hr]] at h
      obtain rfl : r0 = r := Option.some_inj.mp h
      obtain ⟨h1, h2, h3, h4, h5, e', he', he1, he2⟩ :=
        rowMismatch_some t mach jobs r0 hr
      exact ⟨h2, h3, h4, h5, (mach, jobs),
        List.mem_cons_self _ _, h1.symm, e', he', he1, he2⟩

/-- C8 (amended): `validate_schedule` returns `True` exactly when every
non-sentinel entry's recorded start time equals the solver's start-time
value bit-exactly (the code compares with Python `!=`, not with a
tolerance); on a mismatch it reports the specific machine and job together
with both values and the overall verdict is `False`. -/
theorem validate_schedule_exact_spec (t : Nat → ℚ)
    (sched : List (Nat × List (Int × ℚ × ℚ))) :
    (validate_schedule t sched = true ↔
      ∀ p ∈ sched, ∀ e ∈ p.2, e.1 ≠ -1 → e.1 ≠ -2 → t e.1.toNat = e.2.1) ∧
    (validate_schedule t sched = false →
      ∃ machine jobIdx got,
        scheduleMismatch t sched = some (machine, jobIdx, t jobIdx.toNat, got) ∧
        jobIdx ≠ -1 ∧ jobIdx ≠ -2 ∧ t jobIdx.toNat ≠ got ∧
        ∃ p ∈ sched, p.1 = machine ∧
          ∃ e ∈ p.2, e.1 = jobIdx ∧ e.2.1 = got) := by
  constructor
  · rw [validate_schedule, Option.isNone_iff_eq_none, scheduleMismatch_none_iff]
    constructor
    · intro h p hp e he h1 h2
      exact (rowMismatch_none_iff t p.1 p.2).mp (h p hp) e he h1 h2
    · intro h p hp
      exact (rowMismatch_none_iff t p.1 p.2).mpr (fun e he h1 h2 =>
        h p hp e he h1 h2)
  · intro hfalse
    obtain ⟨r, hr⟩ : ∃ r, scheduleMismatch t sched = some r := by
      rcases ho : scheduleMismatch t sched with _ | r
      · rw [validate_schedule, ho] at hfalse
        exact absurd hfalse (by simp)
      · exact ⟨r, rfl⟩
    obtain ⟨h1, h2, h3, h4, p, hp, hpm, e, he, he1, he2⟩ :=
      scheduleMismatch_some t sched r hr
    refine ⟨r.1, r.2.1, r.2.2.2, ?_, h1, h2, h3 ▸ h4, p, hp, hpm,
      e, he, he1, he2⟩
    rw [hr]
    have : (r.1, r.2.1, t r.2.1.toNat, r.2.2.2) = r := by
      rw [← h3]
    rw [this]

/-- C8 counterexample: the source comparison is bit-exact, not
tolerance-based. A recorded start time deviating from the solver's value by
only 10⁻¹² — far below any solver-appropriate tolerance (the spec's §9
suggests magnitudes like 10⁻⁶) — already makes `validate_schedule` return
`False`, whereas the spec-modelled tolerance-based validator accepts it. -/
theorem validate_schedule_not_tolerant :
    validate_schedule tZero schedTiny = false ∧
    |tZero 0 - Rat.divInt 1 1000000000000| ≤ Rat.divInt 1 1000000 ∧
    validate_schedule_tol (Rat.divInt 1 1000000) tZero schedTiny = true := by
  have habs : |tZero 0 - Rat.divInt 1 1000000000000| ≤ Rat.divInt 1 1000000 := by
    show |(0 : ℚ) - Rat.divInt 1 1000000000000| ≤ Rat.divInt 1 1000000
    rw [Rat.divInt_eq_div, Rat.divInt_eq_div, abs_of_nonpos] <;> norm_num
  refine ⟨by decide, habs, ?_⟩
  simp only [validate_schedule_tol, schedTiny, List.all_cons, List.all_nil,
    Bool.and_true]
  have h01 : ¬((0 : Int) = -1 ∨ (0 : Int) = -2) := by decide
  rw [if_neg h01]
  exact decide_eq_true habs

/-- Witness for the amended C8 on a concrete mismatching schedule. -/
theorem validate_schedule_exact_spec_witness :
    validate_schedule tZero schedTiny = false ∧
    (∃ machine jobIdx got,
      scheduleMismatch tZero schedTiny =
        some (machine, jobIdx, tZero jobIdx.toNat, got) ∧
      jobIdx ≠ -1 ∧ jobIdx ≠ -2 ∧ tZero jobIdx.toNat ≠ got ∧
      ∃ p ∈ schedTiny, p.1 = machine ∧
        ∃ e ∈ p.2, e.1 = jobIdx ∧ e.2.1 = got) :=
  ⟨by decide, (validate_schedule_exact_spec tZero schedTiny).2 (by decide)⟩

end ExactSolution
